import Mathlib

/-!
Verification of `pylib/change_geometry.py` (UEDGE): conversion of a
bottom-half double-null ("dnbot") solution to a full double-null ("dnull")
solution by reflecting mesh-indexed field arrays.

Arrays indexed by poloidal row are modelled as Lean `List`s whose elements
are whole poloidal rows (the trailing dimensions — radial, species — are the
row type, kept abstract where possible).  NumPy slice assignment
`full[dst : dst + len(src)] = src` is modelled by `assignSlice full dst src`,
which writes the rows of `src` into `full` starting at index `dst`
(later assignments overwrite earlier ones, exactly as sequential NumPy
statements do).  NumPy raises on a length mismatch between the two sides of
a slice assignment; the theorems therefore carry the length hypotheses under
which every assignment in the source has matching lengths
(`lower.length = half_inner + half_outer = half_nx + 2`).
-/

namespace ChangeGeometry

/-- Slice assignment: `assignSlice arr dst src` writes the elements of `src` into `arr`
starting at position `dst`: the model of the NumPy statement
`arr[dst : dst + len(src)] = src`.  Elements of `src` that would fall past
the end of `arr` are dropped (the hypotheses of the theorems rule this out,
matching NumPy's shape check). -/
def assignSlice {α : Type} : List α → Nat → List α → List α
  | [], _, _ => []
  | a :: arr, dst, src =>
    match dst, src with
    | 0, [] => a :: arr
    | 0, b :: src2 => b :: assignSlice arr 0 src2
    | d + 1, s => a :: assignSlice arr d s

theorem assignSlice_length {α : Type} (arr : List α) (dst : Nat) (src : List α) :
    (assignSlice arr dst src).length = arr.length := by
  induction arr generalizing dst src with
  | nil => rfl
  | cons a arr ih =>
    cases dst with
    | zero =>
      cases src with
      | nil => rfl
      | cons b src2 => simp [assignSlice, ih]
    | succ d => simp [assignSlice, ih]

theorem assignSlice_getD {α : Type} (arr : List α) (dst : Nat) (src : List α)
    (i : Nat) (d : α) (hi : i < arr.length) :
    (assignSlice arr dst src).getD i d =
      if dst ≤ i ∧ i < dst + src.length then src.getD (i - dst) d
      else arr.getD i d := by
  induction arr generalizing dst src i with
  | nil => simp at hi
  | cons a arr ih =>
    cases dst with
    | zero =>
      cases src with
      | nil => simp [assignSlice]
      | cons b src2 =>
        cases i with
        | zero => simp [assignSlice]
        | succ j =>
          have hj : j < arr.length := by simpa using hi
          have h1 : (assignSlice (a :: arr) 0 (b :: src2)).getD (j + 1) d =
              (assignSlice arr 0 src2).getD j d := by
            simp [assignSlice]
          rw [h1, ih 0 src2 j hj]
          by_cases hc : j < src2.length
          · rw [if_pos ⟨Nat.zero_le _, by omega⟩, if_pos ⟨Nat.zero_le _, by simpa using hc⟩]
            simp
          · rw [if_neg (by omega), if_neg (by simp; omega)]
            simp
    | succ e =>
      cases i with
      | zero =>
        have h1 : (assignSlice (a :: arr) (e + 1) src).getD 0 d = a := by
          simp [assignSlice]
        rw [h1, if_neg (by omega)]
        simp
      | succ j =>
        have hj : j < arr.length := by simpa using hi
        have h1 : (assignSlice (a :: arr) (e + 1) src).getD (j + 1) d =
            (assignSlice arr e src).getD j d := by
          simp [assignSlice]
        rw [h1, ih e src j hj]
        by_cases hc : e ≤ j ∧ j < e + src.length
        · rw [if_pos hc, if_pos (by omega)]
          have : j + 1 - (e + 1) = j - e := by omega
          rw [this]
        · rw [if_neg hc, if_neg (by omega)]
          simp

/-- Every element of `assignSlice arr dst src` either was already at that
position in `arr`, or is an element of `src`. -/
theorem assignSlice_getD_mem {α : Type} (arr : List α) (dst : Nat) (src : List α)
    (i : Nat) (d : α) :
    (assignSlice arr dst src).getD i d = arr.getD i d ∨
      (assignSlice arr dst src).getD i d ∈ src := by
  by_cases hi : i < arr.length
  · rw [assignSlice_getD arr dst src i d hi]
    by_cases hc : dst ≤ i ∧ i < dst + src.length
    · rw [if_pos hc]
      right
      have hlt : i - dst < src.length := by omega
      rw [List.getD_eq_getElem src d hlt]
      exact List.getElem_mem hlt
    · rw [if_neg hc]
      left
      rfl
  · left
    have h1 : (assignSlice arr dst src).length ≤ i := by
      rw [assignSlice_length]; omega
    rw [List.getD_eq_default _ _ h1, List.getD_eq_default _ _ (by omega)]

/-! ### Helper lemmas about `List.getD` on slices -/

theorem getD_take {α : Type} (l : List α) (n i : Nat) (d : α) (h : i < n) :
    (l.take n).getD i d = l.getD i d := by
  rw [List.getD_eq_getElem?_getD, List.getD_eq_getElem?_getD, List.getElem?_take]
  simp [h]

theorem getD_drop {α : Type} (l : List α) (n i : Nat) (d : α) :
    (l.drop n).getD i d = l.getD (n + i) d := by
  rw [List.getD_eq_getElem?_getD, List.getD_eq_getElem?_getD, List.getElem?_drop]

theorem getD_reverse {α : Type} (l : List α) (i : Nat) (d : α) (h : i < l.length) :
    l.reverse.getD i d = l.getD (l.length - 1 - i) d := by
  rw [List.getD_eq_getElem?_getD, List.getD_eq_getElem?_getD, List.getElem?_reverse h]

theorem getD_replicate {α : Type} (n : Nat) (a d : α) (i : Nat) (h : i < n) :
    (List.replicate n a).getD i d = a := by
  rw [List.getD_eq_getElem?_getD, List.getElem?_replicate]
  simp [h]

theorem getD_map {α β : Type} (f : α → β) (l : List α) (i : Nat) (d : β) (d2 : α)
    (h : i < l.length) :
    (l.map f).getD i d = f (l.getD i d2) := by
  rw [List.getD_eq_getElem (l.map f) d (by simpa using h), List.getD_eq_getElem l d2 h]
  simp

/-! ### The index-layout calculator (§4.1 of the design), from the source:
`full_inner = 2 * half_inner - 2`, `full_outer = 2 * half_outer - 2`. -/

def full_inner (half_inner : Nat) : Nat := 2 * half_inner - 2

def full_outer (half_outer : Nat) : Nat := 2 * half_outer - 2

/-! ### The cell-centred reflector (`reflect_centred` in the source)

```
full_shape = (2 * half_nx,) + lower_var.shape[1:]
full_var = np.zeros(full_shape)
full_var[:half_inner, :] = lower_var[:half_inner, :]
full_var[half_inner-1:2*half_inner-2, :] = lower_var[:half_inner-1, :][::-1,:]
full_var[full_inner + half_outer-1:, :] = lower_var[half_inner+1:, :]
full_var[full_inner:full_inner + half_outer-1, :] = lower_var[half_inner+1:, :][::-1,:]
return full_var
```

Rows are kept abstract (`α`); `zero` is the all-zero row of the trailing
shape, so `List.replicate (2 * half_nx) zero` models `np.zeros(full_shape)`.
The four slice assignments are applied in source order, innermost first. -/
def reflect_centred {α : Type} (half_nx half_inner half_outer : Nat)
    (zero : α) (lower_var : List α) : List α :=
  assignSlice
    (assignSlice
      (assignSlice
        (assignSlice (List.replicate (2 * half_nx) zero)
          0 (lower_var.take half_inner))
        (half_inner - 1) ((lower_var.take (half_inner - 1)).reverse))
      (full_inner half_inner + half_outer - 1) (lower_var.drop (half_inner + 1)))
    (full_inner half_inner) ((lower_var.drop (half_inner + 1)).reverse)

/-- Row-level characterisation of `reflect_centred`, applying the four slice
assignments of the source in order.  Consistency hypotheses: the input's
poloidal extent is `half_inner + half_outer`, which equals `half_nx + 2`
(in UEDGE, `half_inner + half_outer = nxleg[0,0]+nxcore[0,0]+nxcore[0,1]+nxleg[0,1] + 2
= nx + 2`, the array extent with its two guard cells). -/
theorem reflect_centred_getD {α : Type} (half_nx half_inner half_outer : Nat)
    (zero d : α) (F : List α)
    (hF : F.length = half_inner + half_outer)
    (hnx : half_nx + 2 = half_inner + half_outer)
    (h2 : 2 ≤ half_inner) (o2 : 2 ≤ half_outer)
    (i : Nat) (hi : i < 2 * half_nx) :
    (reflect_centred half_nx half_inner half_outer zero F).getD i d =
      if i < half_inner - 1 then F.getD i d
      else if i < 2 * half_inner - 2 then F.getD (2 * half_inner - 3 - i) d
      else if i < 2 * half_inner + half_outer - 3 then
        F.getD (3 * half_inner + half_outer - 3 - i) d
      else F.getD (i + 4 - half_inner - half_outer) d := by
  have lt1 : (F.take half_inner).length = half_inner := by
    simp only [List.length_take, hF]; omega
  have lt2 : (F.take (half_inner - 1)).length = half_inner - 1 := by
    simp only [List.length_take, hF]; omega
  have lt2r : ((F.take (half_inner - 1)).reverse).length = half_inner - 1 := by
    simp only [List.length_reverse, List.length_take, hF]; omega
  have lt3 : (F.drop (half_inner + 1)).length = half_outer - 1 := by
    simp only [List.length_drop, hF]; omega
  have lt3r : ((F.drop (half_inner + 1)).reverse).length = half_outer - 1 := by
    simp only [List.length_reverse, List.length_drop, hF]; omega
  rw [reflect_centred]
  simp only [full_inner]
  rw [assignSlice_getD _ _ _ i d
    (by simp only [assignSlice_length, List.length_replicate]; omega)]
  rw [assignSlice_getD _ _ _ i d
    (by simp only [assignSlice_length, List.length_replicate]; omega)]
  rw [assignSlice_getD _ _ _ i d
    (by simp only [assignSlice_length, List.length_replicate]; omega)]
  rw [assignSlice_getD _ _ _ i d
    (by simp only [List.length_replicate]; omega)]
  rw [lt1, lt2r, lt3, lt3r]
  by_cases hA : i < half_inner - 1
  · -- lower inner leg, below the seam
    rw [if_neg (by omega), if_neg (by omega), if_neg (by omega),
      if_pos ⟨Nat.zero_le _, by omega⟩, if_pos hA]
    rw [Nat.sub_zero, getD_take F half_inner i d (by omega)]
  · by_cases hB : i < 2 * half_inner - 2
    · -- upper inner leg (mirrored); overwrites the seam row half_inner - 1
      rw [if_neg (by omega), if_neg (by omega), if_pos ⟨by omega, by omega⟩,
        if_neg hA, if_pos hB]
      rw [getD_reverse _ _ _ (by omega), lt2,
        getD_take F (half_inner - 1) _ d (by omega)]
      congr 1
      omega
    · by_cases hC : i < 2 * half_inner + half_outer - 3
      · -- upper outer leg (mirrored)
        rw [if_pos ⟨by omega, by omega⟩, if_neg hA, if_neg hB, if_pos hC]
        rw [getD_reverse _ _ _ (by omega), lt3, getD_drop]
        congr 1
        omega
      · -- lower outer leg
        rw [if_neg (by omega), if_pos ⟨by omega, by omega⟩, if_neg hA, if_neg hB,
          if_neg hC]
        rw [getD_drop]
        congr 1
        omega

/-! ### The staggered-field reflector (`upss` in `dnbot_to_dnull`)

```
upss = np.zeros((2 * half_nx, half_ny + 2, com.nusp))
upss[:half_inner, :, :] = bbb.ups[:half_inner, :, :com.nusp]
upss[half_inner-2:2*half_inner-3, :, :] = -bbb.ups[:half_inner-1, :, :com.nusp][::-1,:,:]
upss[full_inner + half_outer-1:, :, :] = bbb.ups[half_inner+1:, :, :com.nusp]
upss[full_inner-1:full_inner + half_outer-2, :, :] = -bbb.ups[half_inner+1:, :, :com.nusp][::-1,:,:]
upss[2*half_inner-3, :, :] = upss[2*half_inner-4, :, :]
```

A poloidal row of `ups` is a `List (List Int)` (radial × species).
`trimSpecies nusp` models the trailing slice `[:, :nusp]` of a row;
`negRow` models elementwise unary minus on a row. -/

/-- Model of the trailing slice `row[:, :nusp]` on one poloidal row. -/
def trimSpecies (nusp : Nat) (row : List (List Int)) : List (List Int) :=
  row.map (List.take nusp)

/-- Model of elementwise unary minus on one poloidal row. -/
def negRow (row : List (List Int)) : List (List Int) :=
  row.map (fun rad => rad.map (fun x => -x))

/-- The staggered reflection before the boundary-cell correction:
the `np.zeros` allocation and the four slice assignments, in source order. -/
def dnull_upss_pre (half_nx half_inner half_outer ny2 nusp : Nat)
    (ups : List (List (List Int))) : List (List (List Int)) :=
  assignSlice
    (assignSlice
      (assignSlice
        (assignSlice
          (List.replicate (2 * half_nx) (List.replicate ny2 (List.replicate nusp (0 : Int))))
          0 ((ups.take half_inner).map (trimSpecies nusp)))
        (half_inner - 2)
        ((((ups.take (half_inner - 1)).map (trimSpecies nusp)).reverse).map negRow))
      (full_inner half_inner + half_outer - 1)
      ((ups.drop (half_inner + 1)).map (trimSpecies nusp)))
    (full_inner half_inner - 1)
    ((((ups.drop (half_inner + 1)).map (trimSpecies nusp)).reverse).map negRow)

/-- The complete staggered reflection, including the post-correction
`upss[2*half_inner-3, :, :] = upss[2*half_inner-4, :, :]`. -/
def dnull_upss (half_nx half_inner half_outer ny2 nusp : Nat)
    (ups : List (List (List Int))) : List (List (List Int)) :=
  assignSlice (dnull_upss_pre half_nx half_inner half_outer ny2 nusp ups)
    (2 * half_inner - 3)
    [(dnull_upss_pre half_nx half_inner half_outer ny2 nusp ups).getD
      (2 * half_inner - 4) []]

/-- Lengths of the arrays built by the reflectors: always `2 * half_nx`,
straight from the `np.zeros` allocations. -/
theorem reflect_centred_length {α : Type} (half_nx half_inner half_outer : Nat)
    (zero : α) (lower_var : List α) :
    (reflect_centred half_nx half_inner half_outer zero lower_var).length
      = 2 * half_nx := by
  simp only [reflect_centred, assignSlice_length, List.length_replicate]

theorem dnull_upss_pre_length (half_nx half_inner half_outer ny2 nusp : Nat)
    (ups : List (List (List Int))) :
    (dnull_upss_pre half_nx half_inner half_outer ny2 nusp ups).length
      = 2 * half_nx := by
  simp only [dnull_upss_pre, assignSlice_length, List.length_replicate]

theorem dnull_upss_length (half_nx half_inner half_outer ny2 nusp : Nat)
    (ups : List (List (List Int))) :
    (dnull_upss half_nx half_inner half_outer ny2 nusp ups).length = 2 * half_nx := by
  rw [dnull_upss, assignSlice_length, dnull_upss_pre_length]

/-- Row-level characterisation of the staggered reflection before the
boundary-cell correction. -/
theorem dnull_upss_pre_getD (half_nx half_inner half_outer ny2 nusp : Nat)
    (U : List (List (List Int)))
    (hU : U.length = half_inner + half_outer)
    (hnx : half_nx + 2 = half_inner + half_outer)
    (h2 : 2 ≤ half_inner) (o2 : 2 ≤ half_outer)
    (i : Nat) (hi : i < 2 * half_nx) :
    (dnull_upss_pre half_nx half_inner half_outer ny2 nusp U).getD i [] =
      if i < half_inner - 2 then trimSpecies nusp (U.getD i [])
      else if i < 2 * half_inner - 3 then
        negRow (trimSpecies nusp (U.getD (2 * half_inner - 4 - i) []))
      else if i < 2 * half_inner + half_outer - 4 then
        negRow (trimSpecies nusp (U.getD (3 * half_inner + half_outer - 4 - i) []))
      else if i = 2 * half_inner + half_outer - 4 then
        List.replicate ny2 (List.replicate nusp 0)
      else trimSpecies nusp (U.getD (i + 4 - half_inner - half_outer) []) := by
  have lt1 : ((U.take half_inner).map (trimSpecies nusp)).length = half_inner := by
    simp only [List.length_map, List.length_take, hU]; omega
  have lt2 : (U.take (half_inner - 1)).length = half_inner - 1 := by
    simp only [List.length_take, hU]; omega
  have lt2mm : ((U.take (half_inner - 1)).map (trimSpecies nusp)).length
      = half_inner - 1 := by
    simp only [List.length_map, List.length_take, hU]; omega
  have lt2m : (((U.take (half_inner - 1)).map (trimSpecies nusp)).reverse).length
      = half_inner - 1 := by
    simp only [List.length_reverse, List.length_map, List.length_take, hU]; omega
  have lt2r : ((((U.take (half_inner - 1)).map (trimSpecies nusp)).reverse).map negRow).length
      = half_inner - 1 := by
    simp only [List.length_map, List.length_reverse, List.length_take, hU]; omega
  have ltd : (U.drop (half_inner + 1)).length = half_outer - 1 := by
    simp only [List.length_drop, hU]; omega
  have lt3 : ((U.drop (half_inner + 1)).map (trimSpecies nusp)).length
      = half_outer - 1 := by
    simp only [List.length_map, List.length_drop, hU]; omega
  have lt3m : (((U.drop (half_inner + 1)).map (trimSpecies nusp)).reverse).length
      = half_outer - 1 := by
    simp only [List.length_reverse, List.length_map, List.length_drop, hU]; omega
  have lt3r : ((((U.drop (half_inner + 1)).map (trimSpecies nusp)).reverse).map negRow).length
      = half_outer - 1 := by
    simp only [List.length_map, List.length_reverse, List.length_drop, hU]; omega
  rw [dnull_upss_pre]
  simp only [full_inner]
  rw [assignSlice_getD _ _ _ i []
    (by simp only [assignSlice_length, List.length_replicate]; omega)]
  rw [assignSlice_getD _ _ _ i []
    (by simp only [assignSlice_length, List.length_replicate]; omega)]
  rw [assignSlice_getD _ _ _ i []
    (by simp only [assignSlice_length, List.length_replicate]; omega)]
  rw [assignSlice_getD _ _ _ i []
    (by simp only [List.length_replicate]; omega)]
  rw [lt1, lt2r, lt3, lt3r]
  by_cases hA : i < half_inner - 2
  · -- lower inner leg, below the seam rows
    rw [if_neg (by omega), if_neg (by omega), if_neg (by omega),
      if_pos ⟨Nat.zero_le _, by omega⟩, if_pos hA]
    rw [Nat.sub_zero, getD_map _ _ _ _ []
        (by simp only [List.length_take, hU]; omega),
      getD_take U half_inner i [] (by omega)]
  · by_cases hB : i < 2 * half_inner - 3
    · -- upper inner leg (mirrored, sign flipped)
      rw [if_neg (by omega), if_neg (by omega), if_pos ⟨by omega, by omega⟩,
        if_neg hA, if_pos hB]
      rw [getD_map _ _ _ _ [] (by rw [lt2m]; omega)]
      rw [getD_reverse _ _ _ (by rw [lt2mm]; omega)]
      rw [lt2mm]
      rw [getD_map _ _ _ _ [] (by rw [lt2]; omega)]
      rw [getD_take U (half_inner - 1) _ [] (by omega)]
      have he : half_inner - 1 - 1 - (i - (half_inner - 2))
          = 2 * half_inner - 4 - i := by omega
      rw [he]
    · by_cases hC : i < 2 * half_inner + half_outer - 4
      · -- upper outer leg (mirrored, sign flipped)
        rw [if_pos ⟨by omega, by omega⟩, if_neg hA, if_neg hB, if_pos hC]
        rw [getD_map _ _ _ _ [] (by rw [lt3m]; omega)]
        rw [getD_reverse _ _ _ (by rw [lt3]; omega)]
        rw [lt3]
        rw [getD_map _ _ _ _ [] (by rw [ltd]; omega)]
        rw [getD_drop]
        have he : half_inner + 1 + (half_outer - 1 - 1 - (i - (2 * half_inner - 2 - 1)))
            = 3 * half_inner + half_outer - 4 - i := by omega
        rw [he]
      · by_cases hD : i = 2 * half_inner + half_outer - 4
        · -- the never-written face between upper-outer and lower-outer segments
          rw [if_neg (by omega), if_neg (by omega), if_neg (by omega),
            if_neg (by omega), if_neg hA, if_neg hB, if_neg hC, if_pos hD]
          rw [getD_replicate _ _ _ _ (by omega)]
        · -- lower outer leg
          rw [if_neg (by omega), if_pos ⟨by omega, by omega⟩, if_neg hA, if_neg hB,
            if_neg hC, if_neg hD]
          rw [getD_map _ _ _ _ [] (by rw [ltd]; omega)]
          rw [getD_drop]
          have he : half_inner + 1 + (i - (2 * half_inner - 2 + half_outer - 1))
              = i + 4 - half_inner - half_outer := by omega
          rw [he]

/-- Row-level characterisation of the complete staggered reflection
(after the boundary-cell correction). -/
theorem dnull_upss_getD (half_nx half_inner half_outer ny2 nusp : Nat)
    (U : List (List (List Int)))
    (hU : U.length = half_inner + half_outer)
    (hnx : half_nx + 2 = half_inner + half_outer)
    (h2 : 2 ≤ half_inner) (o2 : 2 ≤ half_outer)
    (i : Nat) (hi : i < 2 * half_nx) :
    (dnull_upss half_nx half_inner half_outer ny2 nusp U).getD i [] =
      if i < half_inner - 2 then trimSpecies nusp (U.getD i [])
      else if i < 2 * half_inner - 3 then
        negRow (trimSpecies nusp (U.getD (2 * half_inner - 4 - i) []))
      else if i = 2 * half_inner - 3 then
        negRow (trimSpecies nusp (U.getD 0 []))
      else if i < 2 * half_inner + half_outer - 4 then
        negRow (trimSpecies nusp (U.getD (3 * half_inner + half_outer - 4 - i) []))
      else if i = 2 * half_inner + half_outer - 4 then
        List.replicate ny2 (List.replicate nusp 0)
      else trimSpecies nusp (U.getD (i + 4 - half_inner - half_outer) []) := by
  rw [dnull_upss]
  rw [assignSlice_getD _ _ _ i [] (by rw [dnull_upss_pre_length]; omega)]
  simp only [List.length_cons, List.length_nil]
  by_cases hE : i = 2 * half_inner - 3
  · -- the corrected upper-inner boundary cell
    rw [if_pos ⟨by omega, by omega⟩]
    have hsub : i - (2 * half_inner - 3) = 0 := by omega
    rw [hsub, List.getD_cons_zero,
      dnull_upss_pre_getD half_nx half_inner half_outer ny2 nusp U hU hnx h2 o2
        (2 * half_inner - 4) (by omega)]
    rw [if_neg (by omega), if_pos (by omega)]
    rw [if_neg (by omega), if_neg (by omega), if_pos hE]
    have he : 2 * half_inner - 4 - (2 * half_inner - 4) = 0 := by omega
    rw [he]
  · rw [if_neg (by omega),
      dnull_upss_pre_getD half_nx half_inner half_outer ny2 nusp U hU hnx h2 o2 i hi]
    split_ifs <;> rfl

/-- If every element of `src` satisfies `P` and position `i` of `arr` does,
then position `i` after the slice assignment does. -/
theorem assignSlice_getD_pred {α : Type} (P : α → Prop) (arr : List α) (dst : Nat)
    (src : List α) (i : Nat) (z : α)
    (hsrc : ∀ a ∈ src, P a) (harr : P (arr.getD i z)) :
    P ((assignSlice arr dst src).getD i z) := by
  rcases assignSlice_getD_mem arr dst src i z with h | h
  · rw [h]; exact harr
  · exact hsrc _ h

/-! ### Sign predicates on staggered rows (for the flow-field sign claims) -/

/-- Every entry of the row (radial × species) is strictly positive. -/
def rowPos (row : List (List Int)) : Prop := ∀ rad ∈ row, ∀ x ∈ rad, 0 < x

/-- Every entry of the row (radial × species) is strictly negative. -/
def rowNeg (row : List (List Int)) : Prop := ∀ rad ∈ row, ∀ x ∈ rad, x < 0

/-- Every entry of the poloidal × radial × species field is strictly positive. -/
def fieldPos (U : List (List (List Int))) : Prop := ∀ row ∈ U, rowPos row

instance rowPosDec (row : List (List Int)) : Decidable (rowPos row) :=
  inferInstanceAs (Decidable (∀ rad ∈ row, ∀ x ∈ rad, 0 < x))

instance rowNegDec (row : List (List Int)) : Decidable (rowNeg row) :=
  inferInstanceAs (Decidable (∀ rad ∈ row, ∀ x ∈ rad, x < 0))

instance fieldPosDec (U : List (List (List Int))) : Decidable (fieldPos U) :=
  inferInstanceAs (Decidable (∀ row ∈ U, rowPos row))

theorem rowPos_trimSpecies (n : Nat) (row : List (List Int)) (h : rowPos row) :
    rowPos (trimSpecies n row) := by
  intro rad hr x hx
  rcases List.mem_map.mp hr with ⟨rad0, hr0, rfl⟩
  exact h rad0 hr0 x (List.mem_of_mem_take hx)

theorem rowNeg_negRow (row : List (List Int)) (h : rowPos row) :
    rowNeg (negRow row) := by
  intro rad hr x hx
  rcases List.mem_map.mp hr with ⟨rad0, hr0, rfl⟩
  rcases List.mem_map.mp hx with ⟨y, hy, rfl⟩
  have := h rad0 hr0 y hy
  omega

theorem fieldPos_getD (U : List (List (List Int))) (h : fieldPos U) (j : Nat) :
    rowPos (U.getD j []) := by
  by_cases hj : j < U.length
  · rw [List.getD_eq_getElem U [] hj]
    exact h _ (List.getElem_mem hj)
  · rw [List.getD_eq_default _ _ (by omega)]
    intro rad hr
    simp at hr

/-! ### Claim C1 (corrected): round-trip identity at the legs -/

/-- C1 as stated is false: the "upper inner" slice assignment
`full_var[half_inner-1:2*half_inner-2] = lower_var[:half_inner-1][::-1]`
overwrites the seam row `half_inner - 1`, so the first `half_inner` rows of
the output do not reproduce `F[0:half_inner]` row for row.  Concrete
counterexample with `half_inner = 4`, `half_outer = 5`, `half_nx = 7` and
`F = [0,…,8]`: output row 3 is `F[2] = 2`, not `F[3] = 3`. -/
theorem reflect_centred_roundtrip_cex :
    ¬ ((reflect_centred 7 4 5 (0 : Int) [0, 1, 2, 3, 4, 5, 6, 7, 8]).take 4
        = ([0, 1, 2, 3, 4, 5, 6, 7, 8] : List Int).take 4) := by
  decide

/-- C1 (amended): for a consistent half-domain field `F` the round-trip
identity holds on the first `half_inner - 1` poloidal rows (one fewer than
claimed: the seam row `half_inner - 1` is overwritten by the mirrored
upper-inner segment and holds `F[half_inner - 2]` instead, third conjunct),
and — exactly as claimed — the output from row
`full_inner + half_outer - 1 = 2*half_inner + half_outer - 3` onwards equals
`F[half_inner+1:]` row for row. -/
theorem reflect_centred_roundtrip {α : Type} (half_nx half_inner half_outer : Nat)
    (zero d : α) (F : List α)
    (hF : F.length = half_inner + half_outer)
    (hnx : half_nx + 2 = half_inner + half_outer)
    (h2 : 2 ≤ half_inner) (o2 : 2 ≤ half_outer) (j : Nat) :
    (j < half_inner - 1 →
      (reflect_centred half_nx half_inner half_outer zero F).getD j d = F.getD j d) ∧
    (j < half_outer - 1 →
      (reflect_centred half_nx half_inner half_outer zero F).getD
          (2 * half_inner + half_outer - 3 + j) d = F.getD (half_inner + 1 + j) d) ∧
    (reflect_centred half_nx half_inner half_outer zero F).getD (half_inner - 1) d
      = F.getD (half_inner - 2) d := by
  refine ⟨fun hj => ?_, fun hj => ?_, ?_⟩
  · rw [reflect_centred_getD half_nx half_inner half_outer zero d F hF hnx h2 o2 j
      (by omega), if_pos hj]
  · rw [reflect_centred_getD half_nx half_inner half_outer zero d F hF hnx h2 o2
      (2 * half_inner + half_outer - 3 + j) (by omega),
      if_neg (by omega), if_neg (by omega), if_neg (by omega)]
    congr 1
    omega
  · rw [reflect_centred_getD half_nx half_inner half_outer zero d F hF hnx h2 o2
      (half_inner - 1) (by omega), if_neg (by omega), if_pos (by omega)]
    congr 1
    omega

theorem reflect_centred_roundtrip_witness :
    (reflect_centred 7 4 5 (0 : Int) [0, 1, 2, 3, 4, 5, 6, 7, 8]).getD 0 0
        = ([0, 1, 2, 3, 4, 5, 6, 7, 8] : List Int).getD 0 0 ∧
    (reflect_centred 7 4 5 (0 : Int) [0, 1, 2, 3, 4, 5, 6, 7, 8]).getD
        (2 * 4 + 5 - 3 + 0) 0
        = ([0, 1, 2, 3, 4, 5, 6, 7, 8] : List Int).getD (4 + 1 + 0) 0 ∧
    (reflect_centred 7 4 5 (0 : Int) [0, 1, 2, 3, 4, 5, 6, 7, 8]).getD (4 - 1) 0
        = ([0, 1, 2, 3, 4, 5, 6, 7, 8] : List Int).getD (4 - 2) 0 :=
  ⟨(reflect_centred_roundtrip 7 4 5 0 0 _ (by decide) (by decide) (by decide)
      (by decide) 0).1 (by decide),
   (reflect_centred_roundtrip 7 4 5 0 0 _ (by decide) (by decide) (by decide)
      (by decide) 0).2.1 (by decide),
   (reflect_centred_roundtrip 7 4 5 0 0 _ (by decide) (by decide) (by decide)
      (by decide) 0).2.2⟩

/-! ### Claim C2 (confirmed): mirror symmetry of the cell-centred reflector -/

/-- C2: output rows `half_inner-1 … 2*half_inner-3` (inclusive) are
`F[0 : half_inner-1]` reversed (offset `j` gives `F[half_inner-2-j]`), and
output rows `full_inner … full_inner+half_outer-2` (inclusive) are
`F[half_inner+1 :]` reversed (offset `j` gives `F[half_inner+half_outer-1-j]`).
Rows are copied whole (`α` is the abstract row type), so the trailing
dimensions are verbatim. -/
theorem reflect_centred_mirror {α : Type} (half_nx half_inner half_outer : Nat)
    (zero d : α) (F : List α)
    (hF : F.length = half_inner + half_outer)
    (hnx : half_nx + 2 = half_inner + half_outer)
    (h2 : 2 ≤ half_inner) (o2 : 2 ≤ half_outer) (j : Nat) :
    (j < half_inner - 1 →
      (reflect_centred half_nx half_inner half_outer zero F).getD (half_inner - 1 + j) d
        = F.getD (half_inner - 2 - j) d) ∧
    (j < half_outer - 1 →
      (reflect_centred half_nx half_inner half_outer zero F).getD
          (2 * half_inner - 2 + j) d
        = F.getD (half_inner + half_outer - 1 - j) d) := by
  constructor
  · intro hj
    rw [reflect_centred_getD half_nx half_inner half_outer zero d F hF hnx h2 o2
      (half_inner - 1 + j) (by omega), if_neg (by omega), if_pos (by omega)]
    congr 1
    omega
  · intro hj
    rw [reflect_centred_getD half_nx half_inner half_outer zero d F hF hnx h2 o2
      (2 * half_inner - 2 + j) (by omega),
      if_neg (by omega), if_neg (by omega), if_pos (by omega)]
    congr 1
    omega

theorem reflect_centred_mirror_witness :
    (reflect_centred 7 4 5 (0 : Int) [0, 1, 2, 3, 4, 5, 6, 7, 8]).getD (4 - 1 + 1) 0
        = ([0, 1, 2, 3, 4, 5, 6, 7, 8] : List Int).getD (4 - 2 - 1) 0 ∧
    (reflect_centred 7 4 5 (0 : Int) [0, 1, 2, 3, 4, 5, 6, 7, 8]).getD (2 * 4 - 2 + 1) 0
        = ([0, 1, 2, 3, 4, 5, 6, 7, 8] : List Int).getD (4 + 5 - 1 - 1) 0 :=
  ⟨(reflect_centred_mirror 7 4 5 0 0 _ (by decide) (by decide) (by decide)
      (by decide) 1).1 (by decide),
   (reflect_centred_mirror 7 4 5 0 0 _ (by decide) (by decide) (by decide)
      (by decide) 1).2 (by decide)⟩

/-! ### Claim C8 (corrected): output shape of the two reflectors -/

/-- C8 as stated is false: both reflectors allocate `2 * half_nx` poloidal
rows, while a consistent input array has poloidal extent `half_nx + 2`
(the interior cells plus two guard cells), so the output extent is
`2 * (input extent) - 4`, not twice the input extent.  Concrete
counterexample: the consistent input `[0,…,8]` (extent 9, `half_nx = 7`)
produces an output of extent 14 ≠ 18. -/
theorem reflect_shape_cex :
    ¬ ((reflect_centred 7 4 5 (0 : Int) [0, 1, 2, 3, 4, 5, 6, 7, 8]).length
        = 2 * ([0, 1, 2, 3, 4, 5, 6, 7, 8] : List Int).length) := by
  decide

/-- C8 (amended): for every input, the output poloidal extent of either
reflector is exactly `2 * half_nx` — twice the descriptor's interior cell
count, i.e. `2 * (N - 2)` for a consistent input of extent
`N = half_nx + 2` — and every poloidal row of the cell-centred output is
copied verbatim from the input (trailing dimensions unchanged) or is the
all-zero row of the allocation. -/
theorem reflect_shapes {α : Type} (half_nx half_inner half_outer ny2 nusp : Nat)
    (zero : α) (F : List α) (U : List (List (List Int))) :
    (reflect_centred half_nx half_inner half_outer zero F).length = 2 * half_nx ∧
    (dnull_upss half_nx half_inner half_outer ny2 nusp U).length = 2 * half_nx ∧
    ∀ i, (reflect_centred half_nx half_inner half_outer zero F).getD i zero = zero ∨
      (reflect_centred half_nx half_inner half_outer zero F).getD i zero ∈ F := by
  refine ⟨reflect_centred_length half_nx half_inner half_outer zero F,
    dnull_upss_length half_nx half_inner half_outer ny2 nusp U, fun i => ?_⟩
  rw [reflect_centred]
  refine assignSlice_getD_pred (fun x => x = zero ∨ x ∈ F) _ _ _ _ _
    (fun a ha => Or.inr (List.mem_of_mem_drop (List.mem_reverse.mp ha)))
    (assignSlice_getD_pred (fun x => x = zero ∨ x ∈ F) _ _ _ _ _
      (fun a ha => Or.inr (List.mem_of_mem_drop ha))
      (assignSlice_getD_pred (fun x => x = zero ∨ x ∈ F) _ _ _ _ _
        (fun a ha => Or.inr (List.mem_of_mem_take (List.mem_reverse.mp ha)))
        (assignSlice_getD_pred (fun x => x = zero ∨ x ∈ F) _ _ _ _ _
          (fun a ha => Or.inr (List.mem_of_mem_take ha)) (Or.inl ?_))))
  by_cases hj : i < 2 * half_nx
  · exact getD_replicate _ _ _ _ hj
  · exact List.getD_eq_default _ _ (by simp only [List.length_replicate]; omega)

/-! ### Claim C3 (corrected): signs of the staggered reflection -/

/-- C3 as stated is false: the mirrored upper-inner slice assignment starts
at row `half_inner - 2`, overwriting rows `half_inner - 2` and
`half_inner - 1` of the previously copied lower-inner leg `[0, half_inner)`
with sign-flipped values, so for an all-positive flow those rows of the
claimed "unmirrored, sign-retaining" leg are in fact strictly negative.
Concrete counterexample (`half_inner = half_outer = 3`, `half_nx = 4`,
all-positive input): output row 1 is `[[-2]]`. -/
theorem dnull_upss_signs_cex :
    fieldPos ([1, 2, 3, 4, 5, 6].map (fun k => [[(k : Int)]])) ∧
    ¬ rowPos ((dnull_upss 4 3 3 1 1
        ([1, 2, 3, 4, 5, 6].map (fun k => [[(k : Int)]]))).getD 1 []) := by
  decide

/-- C3 (amended): for an all-positive staggered flow field, every entry of
the two mirrored segments — rows `[half_inner-2, 2*half_inner-3)` and rows
`[full_inner-1, full_inner+half_outer-2) = [2*half_inner-3, 2*half_inner+half_outer-4)`
(the latter including the post-corrected boundary row) — is strictly
negative, and the sign is retained on the unmirrored lower-inner rows
`[0, half_inner-2)` (not `[0, half_inner)` as claimed: the two seam rows are
overwritten by the mirror) and on the whole unmirrored lower-outer leg
`[full_inner+half_outer-1, 2*half_nx)` as claimed. -/
theorem dnull_upss_signs (half_nx half_inner half_outer ny2 nusp : Nat)
    (U : List (List (List Int)))
    (hU : U.length = half_inner + half_outer)
    (hnx : half_nx + 2 = half_inner + half_outer)
    (h2 : 2 ≤ half_inner) (o2 : 2 ≤ half_outer)
    (hpos : fieldPos U) (i : Nat) :
    (half_inner - 2 ≤ i → i < 2 * half_inner - 3 →
      rowNeg ((dnull_upss half_nx half_inner half_outer ny2 nusp U).getD i [])) ∧
    (2 * half_inner - 3 ≤ i → i < 2 * half_inner + half_outer - 4 →
      rowNeg ((dnull_upss half_nx half_inner half_outer ny2 nusp U).getD i [])) ∧
    (i < half_inner - 2 →
      rowPos ((dnull_upss half_nx half_inner half_outer ny2 nusp U).getD i [])) ∧
    (2 * half_inner + half_outer - 3 ≤ i → i < 2 * half_nx →
      rowPos ((dnull_upss half_nx half_inner half_outer ny2 nusp U).getD i [])) := by
  refine ⟨fun hl hr => ?_, fun hl hr => ?_, fun hl => ?_, fun hl hr => ?_⟩
  · rw [dnull_upss_getD half_nx half_inner half_outer ny2 nusp U hU hnx h2 o2 i
      (by omega), if_neg (by omega), if_pos (by omega)]
    exact rowNeg_negRow _ (rowPos_trimSpecies _ _ (fieldPos_getD U hpos _))
  · rw [dnull_upss_getD half_nx half_inner half_outer ny2 nusp U hU hnx h2 o2 i
      (by omega), if_neg (by omega), if_neg (by omega)]
    by_cases hEq : i = 2 * half_inner - 3
    · rw [if_pos hEq]
      exact rowNeg_negRow _ (rowPos_trimSpecies _ _ (fieldPos_getD U hpos _))
    · rw [if_neg hEq, if_pos (by omega)]
      exact rowNeg_negRow _ (rowPos_trimSpecies _ _ (fieldPos_getD U hpos _))
  · rw [dnull_upss_getD half_nx half_inner half_outer ny2 nusp U hU hnx h2 o2 i
      (by omega), if_pos hl]
    exact rowPos_trimSpecies _ _ (fieldPos_getD U hpos _)
  · rw [dnull_upss_getD half_nx half_inner half_outer ny2 nusp U hU hnx h2 o2 i hr,
      if_neg (by omega), if_neg (by omega), if_neg (by omega), if_neg (by omega),
      if_neg (by omega)]
    exact rowPos_trimSpecies _ _ (fieldPos_getD U hpos _)

theorem dnull_upss_signs_witness :
    rowNeg ((dnull_upss 7 4 5 1 1
        ([1, 2, 3, 4, 5, 6, 7, 8, 9].map (fun k => [[(k : Int)]]))).getD 3 []) ∧
    rowNeg ((dnull_upss 7 4 5 1 1
        ([1, 2, 3, 4, 5, 6, 7, 8, 9].map (fun k => [[(k : Int)]]))).getD 6 []) ∧
    rowPos ((dnull_upss 7 4 5 1 1
        ([1, 2, 3, 4, 5, 6, 7, 8, 9].map (fun k => [[(k : Int)]]))).getD 0 []) ∧
    rowPos ((dnull_upss 7 4 5 1 1
        ([1, 2, 3, 4, 5, 6, 7, 8, 9].map (fun k => [[(k : Int)]]))).getD 11 []) :=
  ⟨(dnull_upss_signs 7 4 5 1 1 _ (by decide) (by decide) (by decide) (by decide)
      (by decide) 3).1 (by decide) (by decide),
   (dnull_upss_signs 7 4 5 1 1 _ (by decide) (by decide) (by decide) (by decide)
      (by decide) 6).2.1 (by decide) (by decide),
   (dnull_upss_signs 7 4 5 1 1 _ (by decide) (by decide) (by decide) (by decide)
      (by decide) 0).2.2.1 (by decide),
   (dnull_upss_signs 7 4 5 1 1 _ (by decide) (by decide) (by decide) (by decide)
      (by decide) 11).2.2.2 (by decide) (by decide)⟩

/-! ### Claim C4 (confirmed): the boundary-cell post-correction -/

/-- C4: after the staggered reflection completes, the output row at poloidal
index `2*half_inner - 3` equals the row at `2*half_inner - 4` elementwise.
The second conjunct pins down their common value, `-ups[0][:, :nusp]`: this
is the value the correction (the final write in the construction) copies
from its neighbour, not the value `-ups[half_inner+half_outer-1][:, :nusp]`
that the upper-outer slice assignment had previously placed at row
`2*half_inner - 3` — evidence that the overwrite is indeed the last write
to that row. -/
theorem dnull_upss_boundary_corr (half_nx half_inner half_outer ny2 nusp : Nat)
    (U : List (List (List Int)))
    (hU : U.length = half_inner + half_outer)
    (hnx : half_nx + 2 = half_inner + half_outer)
    (h2 : 2 ≤ half_inner) (o2 : 2 ≤ half_outer) :
    (dnull_upss half_nx half_inner half_outer ny2 nusp U).getD (2 * half_inner - 3) []
      = (dnull_upss half_nx half_inner half_outer ny2 nusp U).getD
          (2 * half_inner - 4) [] ∧
    (dnull_upss half_nx half_inner half_outer ny2 nusp U).getD (2 * half_inner - 3) []
      = negRow (trimSpecies nusp (U.getD 0 [])) := by
  have hm3 := dnull_upss_getD half_nx half_inner half_outer ny2 nusp U hU hnx h2 o2
    (2 * half_inner - 3) (by omega)
  have hm4 := dnull_upss_getD half_nx half_inner half_outer ny2 nusp U hU hnx h2 o2
    (2 * half_inner - 4) (by omega)
  rw [if_neg (by omega), if_neg (by omega), if_pos rfl] at hm3
  rw [if_neg (by omega), if_pos (by omega), Nat.sub_self] at hm4
  exact ⟨by rw [hm3, hm4], hm3⟩

theorem dnull_upss_boundary_corr_witness :
    (dnull_upss 7 4 5 1 1
        ([1, 2, 3, 4, 5, 6, 7, 8, 9].map (fun k => [[(k : Int)]]))).getD
        (2 * 4 - 3) []
      = (dnull_upss 7 4 5 1 1
          ([1, 2, 3, 4, 5, 6, 7, 8, 9].map (fun k => [[(k : Int)]]))).getD
          (2 * 4 - 4) [] :=
  (dnull_upss_boundary_corr 7 4 5 1 1 _ (by decide) (by decide) (by decide)
    (by decide)).1

/-! ### Claim C10 (confirmed): the never-written zero face -/

/-- C10: no slice assignment of the staggered reflection writes poloidal row
`full_inner + half_outer - 2` (the upper-outer mirror stops one row short of
it, the lower-outer copy starts one row after it, and the post-correction
targets row `2*half_inner - 3` instead), so that row of the committed flow
field keeps its `np.zeros` value: every entry is exactly zero. -/
theorem dnull_upss_zero_face (half_nx half_inner half_outer ny2 nusp : Nat)
    (U : List (List (List Int)))
    (hU : U.length = half_inner + half_outer)
    (hnx : half_nx + 2 = half_inner + half_outer)
    (h2 : 2 ≤ half_inner) (o2 : 2 ≤ half_outer) :
    (dnull_upss half_nx half_inner half_outer ny2 nusp U).getD
        (full_inner half_inner + half_outer - 2) []
      = List.replicate ny2 (List.replicate nusp 0) := by
  have he : full_inner half_inner + half_outer - 2
      = 2 * half_inner + half_outer - 4 := by
    unfold full_inner; omega
  rw [he, dnull_upss_getD half_nx half_inner half_outer ny2 nusp U hU hnx h2 o2
      (2 * half_inner + half_outer - 4) (by omega),
    if_neg (by omega), if_neg (by omega), if_neg (by omega), if_neg (by omega),
    if_pos rfl]

theorem dnull_upss_zero_face_witness :
    (dnull_upss 7 4 5 1 1
        ([1, 2, 3, 4, 5, 6, 7, 8, 9].map (fun k => [[(k : Int)]]))).getD
        (full_inner 4 + 5 - 2) []
      = List.replicate 1 (List.replicate 1 0) :=
  dnull_upss_zero_face 7 4 5 1 1 _ (by decide) (by decide) (by decide) (by decide)

/-! ### The conversion orchestrator (`dnbot_to_dnull`)

The external solver's state (`com.*` / `bbb.*` globals in the source) is a
record; 2-D cell-centred fields are poloidal lists of abstract rows
(`List Int`), the staggered flow is poloidal × radial × species.
`convert` models the whole function body: the Python `assert` is modelled by
`Option` — `none` means the `AssertionError` is raised before any statement
that mutates solver state has run, so the caller still holds the unchanged
state.  The solver's grid/array regeneration `bbb.exmain()` is an external
collaborator and is passed in as an opaque function `exmain`. -/

/-- Substring test: `containsSub pat l` holds when `pat` occurs as a contiguous sublist of `l`; models
the Python membership test `"dnbot" in str(com.geometry)`. -/
def containsSub (pat : List Char) : List Char → Bool
  | [] => pat.isEmpty
  | c :: rest => List.isPrefixOf pat (c :: rest) || containsSub pat rest

/-- The all-zero row with the trailing shape of the given field's rows:
models `np.zeros` taking `lower_var.shape[1:]` from a rectangular array. -/
def zeroLike (v : List (List Int)) : List Int :=
  (v.headD []).map (fun _ => 0)

structure SolverState where
  geometry : List Char
  nx : Nat
  ny : Nat
  nusp : Nat
  nxleg00 : Nat
  nxcore00 : Nat
  nxleg01 : Nat
  nxcore01 : Nat
  nis : List (List Int)
  tes : List (List Int)
  tis : List (List Int)
  ngs : List (List Int)
  phis : List (List Int)
  kye_use : List (List Int)
  kyi_use : List (List Int)
  dif_use : List (List Int)
  afracs : List (List Int)
  ups : List (List (List Int))
  nxomit : Int
  isfixlb : Int
  isudsym : Int
  restart : Int
  newgeo : Int
  icntnunk : Int
  isimpon : Int
  iflcore : Int
  ftol : ℚ
  dtreal : ℚ
  pcoree : ℚ
  pcorei : ℚ
deriving DecidableEq

/-- The body of `dnbot_to_dnull` after the geometry assertion has passed:
snapshot and reflect every field from the pre-mutation state, set the
control switches, run the solver regeneration (`exmain`), restore
`newgeo`/`ftol`, commit the reflected fields, and apply the conditional
impurity write-back and core-power doubling — in source order.
If `isimpon` changed to 2 across `exmain` the Python code would raise a
`NameError` (the local `afracs` was never bound); the model keeps the field
unchanged in that case (`Option.getD` of `none`), which the theorems rule
out via the `exmain`-preservation hypotheses. -/
def convertBody (exmain : SolverState → SolverState) (s : SolverState) : SolverState :=
  let half_nx := s.nx
  let half_inner := s.nxleg00 + s.nxcore00 + 1
  let half_outer := s.nxleg01 + s.nxcore01 + 1
  let niss := reflect_centred half_nx half_inner half_outer (zeroLike s.nis) s.nis
  let tess := reflect_centred half_nx half_inner half_outer (zeroLike s.tes) s.tes
  let tiss := reflect_centred half_nx half_inner half_outer (zeroLike s.tis) s.tis
  let ngss := reflect_centred half_nx half_inner half_outer (zeroLike s.ngs) s.ngs
  let phiss := reflect_centred half_nx half_inner half_outer (zeroLike s.phis) s.phis
  let kyess := reflect_centred half_nx half_inner half_outer (zeroLike s.kye_use) s.kye_use
  let kyiss := reflect_centred half_nx half_inner half_outer (zeroLike s.kyi_use) s.kyi_use
  let difss := reflect_centred half_nx half_inner half_outer (zeroLike s.dif_use) s.dif_use
  let afracss := if s.isimpon = 2 then
      some (reflect_centred half_nx half_inner half_outer (zeroLike s.afracs) s.afracs)
    else none
  let upss := dnull_upss half_nx half_inner half_outer (s.ny + 2) s.nusp s.ups
  let s1 := exmain { s with
    nxomit := 0, isfixlb := 0, isudsym := 0,
    geometry := "dnull".toList, restart := 1, newgeo := 1, icntnunk := 0,
    ftol := 10000000000, dtreal := 1 / 1000000 }
  let s2 := { s1 with
    newgeo := 0, ftol := 1 / 100000000,
    nis := niss, ups := upss, tes := tess, tis := tiss, ngs := ngss,
    phis := phiss, kye_use := kyess, kyi_use := kyiss, dif_use := difss }
  let s3 := if s2.isimpon = 2 then { s2 with afracs := afracss.getD s2.afracs } else s2
  if s3.iflcore = 1 then
    { s3 with pcoree := 2 * s3.pcoree, pcorei := 2 * s3.pcorei }
  else s3

/-- Top level of `dnbot_to_dnull`: the geometry tag must contain "dnbot", otherwise the
`assert` raises (`none`) before anything has been mutated. -/
def convert (exmain : SolverState → SolverState) (s : SolverState) :
    Option SolverState :=
  if containsSub ("dnbot".toList) s.geometry then some (convertBody exmain s) else none

theorem convert_some (exmain : SolverState → SolverState) (s s2 : SolverState)
    (hc : convert exmain s = some s2) : s2 = convertBody exmain s := by
  rw [convert] at hc
  by_cases hg : containsSub ("dnbot".toList) s.geometry = true
  · rw [if_pos hg] at hc
    exact (Option.some.inj hc).symm
  · rw [if_neg hg] at hc
    exact Option.noConfusion hc

theorem convertBody_ftol (exmain : SolverState → SolverState) (s : SolverState) :
    (convertBody exmain s).ftol = 1 / 100000000 := by
  simp only [convertBody]
  split_ifs <;> rfl

theorem convertBody_pcoree (exmain : SolverState → SolverState) (s : SolverState)
    (hfl : ∀ t, (exmain t).iflcore = t.iflcore)
    (hpe : ∀ t, (exmain t).pcoree = t.pcoree) :
    (convertBody exmain s).pcoree
      = if s.iflcore = 1 then 2 * s.pcoree else s.pcoree := by
  simp [convertBody, apply_ite SolverState.pcoree, apply_ite SolverState.iflcore,
    hfl, hpe]

theorem convertBody_pcorei (exmain : SolverState → SolverState) (s : SolverState)
    (hfl : ∀ t, (exmain t).iflcore = t.iflcore)
    (hpi : ∀ t, (exmain t).pcorei = t.pcorei) :
    (convertBody exmain s).pcorei
      = if s.iflcore = 1 then 2 * s.pcorei else s.pcorei := by
  simp [convertBody, apply_ite SolverState.pcorei, apply_ite SolverState.iflcore,
    hfl, hpi]

theorem convertBody_afracs (exmain : SolverState → SolverState) (s : SolverState)
    (himp : ∀ t, (exmain t).isimpon = t.isimpon)
    (hafr : ∀ t, (exmain t).afracs = t.afracs) :
    (convertBody exmain s).afracs
      = if s.isimpon = 2 then
          reflect_centred s.nx (s.nxleg00 + s.nxcore00 + 1)
            (s.nxleg01 + s.nxcore01 + 1) (zeroLike s.afracs) s.afracs
        else s.afracs := by
  simp [convertBody, apply_ite SolverState.afracs, apply_ite SolverState.iflcore,
    himp, hafr]
  split_ifs with h <;> rfl

/-- A concrete half-domain solver state with the "dnbot" tag
(`nx = 4`, `half_inner = half_outer = 3`, fields of consistent extent 6). -/
def stGood : SolverState :=
  { geometry := "dnbot".toList
    nx := 4, ny := 0, nusp := 1,
    nxleg00 := 1, nxcore00 := 1, nxleg01 := 1, nxcore01 := 1,
    nis := [[1], [2], [3], [4], [5], [6]],
    tes := [[1], [1], [1], [1], [1], [1]],
    tis := [[2], [2], [2], [2], [2], [2]],
    ngs := [[3], [3], [3], [3], [3], [3]],
    phis := [[0], [0], [0], [0], [0], [0]],
    kye_use := [[1], [1], [1], [1], [1], [1]],
    kyi_use := [[1], [1], [1], [1], [1], [1]],
    dif_use := [[1], [1], [1], [1], [1], [1]],
    afracs := [[7], [7], [7], [7], [7], [7]],
    ups := [[[1]], [[2]], [[3]], [[4]], [[5]], [[6]]],
    nxomit := 3, isfixlb := 2, isudsym := 1, restart := 0, newgeo := 0,
    icntnunk := 1, isimpon := 0, iflcore := 1, ftol := 1 / 100000000,
    dtreal := 5, pcoree := 3, pcorei := 5 }

/-- The same state with a non-"dnbot" geometry tag. -/
def stBad : SolverState := { stGood with geometry := "snull".toList }

/-- The state produced by a successful conversion of `stGood` with an
identity regeneration step. -/
def stPost : SolverState := (convert (fun t => t) stGood).getD stGood

/-! ### Claim C5 (confirmed): the geometry-tag precondition -/

/-- C5: if the geometry tag does not contain "dnbot", `convert` fails with
`none` — in the source the `assert` raises before any statement that writes
solver state has executed, so the caller's state is untouched and fully
recoverable (in the model, failure and absence of mutation are one and the
same: `none` carries no mutated state); if the tag does contain "dnbot",
the check passes and the conversion proceeds to a result. -/
theorem convert_precondition (exmain : SolverState → SolverState) (s : SolverState) :
    (containsSub ("dnbot".toList) s.geometry = false → convert exmain s = none) ∧
    (containsSub ("dnbot".toList) s.geometry = true → (convert exmain s).isSome = true) := by
  constructor
  · intro h
    rw [convert, if_neg (by rw [h]; exact Bool.false_ne_true)]
  · intro h
    rw [convert, if_pos h]
    rfl

theorem convert_precondition_witness :
    convert (fun t => t) stBad = none ∧
    (convert (fun t => t) stGood).isSome = true :=
  ⟨(convert_precondition (fun t => t) stBad).1 (by decide),
   (convert_precondition (fun t => t) stGood).2 (by decide)⟩

/-! ### Claim C6 (confirmed): conditional core-power doubling -/

/-- C6: provided the solver's regeneration step (`exmain`, an external
collaborator that rebuilds mesh and arrays) leaves the scalar control values
`iflcore`, `pcoree`, `pcorei` alone, a successful `convert` doubles both
stored core powers exactly when the fixed-core-power flag `iflcore` was 1 at
call time, and leaves both unchanged otherwise. -/
theorem convert_core_power (exmain : SolverState → SolverState) (s s2 : SolverState)
    (hfl : ∀ t, (exmain t).iflcore = t.iflcore)
    (hpe : ∀ t, (exmain t).pcoree = t.pcoree)
    (hpi : ∀ t, (exmain t).pcorei = t.pcorei)
    (hc : convert exmain s = some s2) :
    (s.iflcore = 1 → s2.pcoree = 2 * s.pcoree ∧ s2.pcorei = 2 * s.pcorei) ∧
    (s.iflcore ≠ 1 → s2.pcoree = s.pcoree ∧ s2.pcorei = s.pcorei) := by
  have hs := convert_some exmain s s2 hc
  subst hs
  rw [convertBody_pcoree exmain s hfl hpe, convertBody_pcorei exmain s hfl hpi]
  constructor
  · intro h1
    rw [if_pos h1, if_pos h1]
    exact ⟨rfl, rfl⟩
  · intro h1
    rw [if_neg h1, if_neg h1]
    exact ⟨rfl, rfl⟩

theorem convert_core_power_witness :
    stPost.pcoree = 2 * stGood.pcoree ∧ stPost.pcorei = 2 * stGood.pcorei :=
  (convert_core_power (fun t => t) stGood stPost (fun _ => rfl) (fun _ => rfl)
    (fun _ => rfl) (by rfl)).1 (by decide)

/-! ### Claim C7 (confirmed): the impurity-fraction frame condition -/

/-- C7: provided the regeneration step leaves `isimpon` and `afracs` alone,
a successful `convert` leaves the impurity-fraction field exactly as it was
whenever the impurity-model flag is not 2 at call time, and writes back
precisely the reflected snapshot when the flag is 2.  (In the functional
model "never reads" has no observable content beyond the conditional
structure: the snapshot-and-reflect of `afracs` is guarded by the same
`isimpon == 2` test as the write-back, mirroring lines 86–88 and 143–145.) -/
theorem convert_afracs_frame (exmain : SolverState → SolverState) (s s2 : SolverState)
    (himp : ∀ t, (exmain t).isimpon = t.isimpon)
    (hafr : ∀ t, (exmain t).afracs = t.afracs)
    (hc : convert exmain s = some s2) :
    (s.isimpon ≠ 2 → s2.afracs = s.afracs) ∧
    (s.isimpon = 2 → s2.afracs = reflect_centred s.nx (s.nxleg00 + s.nxcore00 + 1)
        (s.nxleg01 + s.nxcore01 + 1) (zeroLike s.afracs) s.afracs) := by
  have hs := convert_some exmain s s2 hc
  subst hs
  rw [convertBody_afracs exmain s himp hafr]
  constructor
  · intro h1
    rw [if_neg h1]
  · intro h1
    rw [if_pos h1]

theorem convert_afracs_frame_witness :
    stPost.afracs = stGood.afracs :=
  (convert_afracs_frame (fun t => t) stGood stPost (fun _ => rfl) (fun _ => rfl)
    (by rfl)).1 (by decide)

/-! ### Claim C9 (corrected): the post-conversion tolerance -/

/-- C9 as stated is false: the source sets `bbb.ftol = 1e-8` unconditionally
after the regeneration step (line 128), it does not restore the value held
before the call.  Concrete counterexample: starting from a state whose
tolerance is 1, a successful conversion leaves the tolerance at `1e-8`,
not at the prior value 1. -/
theorem convert_ftol_cex :
    (convert (fun t => t) { stGood with ftol := 1 }).map SolverState.ftol
      = some (1 / 100000000) ∧
    ¬ ((convert (fun t => t) { stGood with ftol := 1 }).map SolverState.ftol
        = some ({ stGood with ftol := 1 } : SolverState).ftol) := by
  constructor
  · rfl
  · intro h
    have h2 := Option.some.inj h
    have h3 : ({ stGood with ftol := 1 } : SolverState).ftol = 1 := rfl
    rw [convertBody_ftol, h3] at h2
    norm_num at h2

/-- C9 (amended): after every successful `convert`, the solver's convergence
tolerance equals the hard-coded strict value `1e-8` — whatever the prior
value was, and whatever the regeneration step did (the final assignment
happens after `exmain` returns). -/
theorem convert_ftol (exmain : SolverState → SolverState) (s s2 : SolverState)
    (hc : convert exmain s = some s2) : s2.ftol = 1 / 100000000 := by
  have hs := convert_some exmain s s2 hc
  subst hs
  exact convertBody_ftol exmain s

theorem convert_ftol_witness : stPost.ftol = 1 / 100000000 :=
  convert_ftol (fun t => t) stGood stPost (by rfl)

end ChangeGeometry
